import Mathlib

/-!
Verification of the Git storage backend adapter (`git_backend.rs`).

The development shallowly embeds the backend: the underlying Git object
store is modelled as association lists from object ids (raw byte lists)
to the native object shapes the adapter reads and writes, the
content-addressing hash of the underlying store is a parameter (the
adapter never computes it itself), and the append-only overlay table is
modelled through its get/add/save contract.  Rust panics
(`unwrap`/`panic!` in the source) are a distinguished `panicked` outcome,
distinct from recoverable `BackendError` values.
-/

namespace JJ

/-- Raw bytes (Rust `Vec<u8>`); each element is intended to be `< 256`. -/
abbrev Bytes := List Nat

/-- `BackendError` from `backend.rs`: `NotFound` is recoverable, `Other` fatal. -/
inductive BackendError where
  | notFound
  | other (msg : String)
deriving DecidableEq

/-- Outcome of a Rust call: `ok`, a returned `Err`, or a panic (`unwrap` failure). -/
inductive RustResult (α : Type) where
  | ok (val : α)
  | err (e : BackendError)
  | panicked (msg : String)
deriving DecidableEq

/-- `const HASH_LENGTH: usize = 20`. -/
def HASH_LENGTH : Nat := 20

/-- `const NO_GC_REF_NAMESPACE: &str = "refs/jj/keep/"`. -/
def NO_GC_REF_NAMESPACE : String := "refs/jj/keep/"

/-- `const CONFLICT_SUFFIX: &str = ".jjconflict"`. -/
def CONFLICT_SUFFIX : String := ".jjconflict"

/-- First-match association-list lookup (latest inserted entry wins,
writes are modelled by prepending). -/
def assocFind {κ α : Type} [DecidableEq κ] : List (κ × α) → κ → Option α
  | [], _ => none
  | (k, v) :: rest, key => if k = key then some v else assocFind rest key

/-- Lowercase hex digit for a nibble, as produced by `hex::encode` / `id.hex()`. -/
def hexDigit (n : Nat) : Char :=
  if n < 10 then Char.ofNat (48 + n) else Char.ofNat (87 + n)

/-- Characters of the lowercase hex encoding of a byte string. -/
def toHexChars : Bytes → List Char
  | [] => []
  | b :: rest => hexDigit (b / 16) :: hexDigit (b % 16) :: toHexChars rest

/-- `id.hex()`: lowercase hex encoding of raw bytes. -/
def toHex (bs : Bytes) : String := ⟨toHexChars bs⟩

/-- Value of one hex character, accepting `0-9`, `a-f`, `A-F` as `hex::decode` does. -/
def hexVal (c : Char) : Option Nat :=
  if 48 ≤ c.toNat ∧ c.toNat ≤ 57 then some (c.toNat - 48)
  else if 97 ≤ c.toNat ∧ c.toNat ≤ 102 then some (c.toNat - 87)
  else if 65 ≤ c.toNat ∧ c.toNat ≤ 70 then some (c.toNat - 55)
  else none

/-- `hex::decode` on a character list: pairs of hex digits, failing on an odd
length or a non-hex character. -/
def fromHexChars : List Char → Option Bytes
  | [] => some []
  | c1 :: c2 :: rest =>
    match hexVal c1, hexVal c2, fromHexChars rest with
    | some hi, some lo, some bs => some ((16 * hi + lo) :: bs)
    | _, _, _ => none
  | [_] => none

/-- `hex::decode` on a string. -/
def fromHex (s : String) : Option Bytes := fromHexChars s.data

/-- The well-known id of the empty Git tree
(`hex::decode("4b825dc642cb6eb9a060e54bf8d69288fbee4904").unwrap()`). -/
def empty_tree_id : Bytes :=
  (fromHex "4b825dc642cb6eb9a060e54bf8d69288fbee4904").getD []

/-- `u8::reverse_bits`: reverse the 8 bits of a byte. -/
def reverseBits8 (b : Nat) : Nat :=
  (List.range 8).foldl (fun acc i => 2 * acc + b / 2 ^ i % 2) 0

/-- The change id derived in `read_commit`: bytes `4..HASH_LENGTH` of the
commit id, byte order reversed, bits of each byte reversed. -/
def change_id_from_commit_id (id : Bytes) : Bytes :=
  (((id.take HASH_LENGTH).drop 4).reverse).map reverseBits8

/-- `Timestamp { timestamp: MillisSinceEpoch(u64), tz_offset: i32 }`. -/
structure Timestamp where
  timestamp : Nat
  tz_offset : Int
deriving DecidableEq

/-- `Signature { name, email, timestamp }`. -/
structure Signature where
  name : String
  email : String
  timestamp : Timestamp
deriving DecidableEq

/-- `TreeValue` from `backend.rs` (the id payloads are raw bytes). -/
inductive TreeValue where
  | normal (id : Bytes) (executable : Bool)
  | symlink (id : Bytes)
  | tree (id : Bytes)
  | gitSubmodule (id : Bytes)
  | conflict (id : Bytes)
deriving DecidableEq

/-- The id bytes carried by a `TreeValue`. -/
def TreeValue.idBytes : TreeValue → Bytes
  | .normal id _ => id
  | .symlink id => id
  | .tree id => id
  | .gitSubmodule id => id
  | .conflict id => id

/-- All id bytes of a `TreeValue` are actual bytes (`< 256`, as `u8` forces). -/
def TreeValue.wfBytes (v : TreeValue) : Bool := v.idBytes.all (· < 256)

/-- `ConflictPart { value: TreeValue }`. -/
structure ConflictPart where
  value : TreeValue
deriving DecidableEq

/-- `Conflict { removes, adds }`. -/
structure Conflict where
  removes : List ConflictPart
  adds : List ConflictPart
deriving DecidableEq

/-- All id bytes inside a `Conflict` are `< 256`. -/
def Conflict.wfBytes (c : Conflict) : Bool :=
  (c.removes.all fun p => p.value.wfBytes) && (c.adds.all fun p => p.value.wfBytes)

/-- `Commit` from `backend.rs`; ids are raw byte lists. -/
structure Commit where
  parents : List Bytes
  predecessors : List Bytes
  root_tree : Bytes
  change_id : Bytes
  description : String
  author : Signature
  committer : Signature
  is_open : Bool
deriving DecidableEq

/-- `Tree`: a `BTreeMap<RepoPathComponent, TreeValue>` represented as its
association list in strictly increasing name order. -/
structure Tree where
  entries : List (String × TreeValue)
deriving DecidableEq

/-- Ordered insert with replacement on an equal key: the effect of
`BTreeMap::insert` on the sorted association list. -/
def insertEntry (name : String) (v : TreeValue) :
    List (String × TreeValue) → List (String × TreeValue)
  | [] => [(name, v)]
  | (n, w) :: rest =>
    if name < n then (name, v) :: (n, w) :: rest
    else if name = n then (name, v) :: rest
    else (n, w) :: insertEntry name v rest

/-- `Tree::set`. -/
def Tree.set (t : Tree) (name : String) (v : TreeValue) : Tree :=
  ⟨insertEntry name v t.entries⟩

/-- `git2::Time`: seconds since epoch and a timezone offset in minutes. -/
structure GitTime where
  seconds : Int
  offset_minutes : Int
deriving DecidableEq

/-- `git2::Signature`. -/
structure GitSignature where
  name : String
  email : String
  time : GitTime
deriving DecidableEq

/-- A native Git commit object as the adapter reads/writes it. -/
structure GitCommit where
  tree : Bytes
  parents : List Bytes
  author : GitSignature
  committer : GitSignature
  message : String
deriving DecidableEq

/-- One native tree entry: name, target oid, file mode. -/
structure GitTreeEntry where
  name : String
  id : Bytes
  filemode : Nat
deriving DecidableEq

/-- The underlying Git object database and references, keyed by raw oids. -/
structure GitRepo where
  blobs : List (Bytes × Bytes)
  trees : List (Bytes × List GitTreeEntry)
  commits : List (Bytes × GitCommit)
  refs : List (String × Bytes)
deriving DecidableEq

/-- The content-addressing hash of the underlying store.  The adapter never
computes this hash itself ("the adapter does not choose this hash"), so it
is a parameter of the model. -/
structure Hasher where
  hashBlob : Bytes → Bytes
  hashTree : List GitTreeEntry → Bytes
  hashCommit : GitCommit → Bytes

/-- Facts the underlying store guarantees about its hash: every oid has the
configured length, and only the empty tree hashes to the well-known empty
tree id. -/
structure HasherWf (h : Hasher) : Prop where
  blob_len : ∀ bs, (h.hashBlob bs).length = HASH_LENGTH
  tree_len : ∀ es, (h.hashTree es).length = HASH_LENGTH
  commit_len : ∀ gc, (h.hashCommit gc).length = HASH_LENGTH
  tree_empty : ∀ es, h.hashTree es = empty_tree_id → es = []

/-- Modelled from the spec: the overlay table value is "a serialized record
of `{is_open, change_id, predecessors}`" (§4.2).  The protobuf byte encoding
(`protos::store::Commit`, external to the shown core) is deterministic and
injective for this message, so the byte string is modelled by the record
itself and byte-for-byte comparison by record equality. -/
structure Extras where
  is_open : Bool
  change_id : Bytes
  predecessors : List Bytes
deriving DecidableEq

/-- The backend state: the Git repository plus the current head of the
overlay table store (key = raw commit hash bytes). -/
structure BackendState where
  repo : GitRepo
  table : List (Bytes × Extras)
deriving DecidableEq

/-- A model of `serde_json::Value`. -/
inductive Json where
  | null
  | bool (b : Bool)
  | num (n : Int)
  | str (s : String)
  | arr (elems : List Json)
  | obj (fields : List (String × Json))

/-- `serde_json::Value::get(key)`: `None` on non-objects. -/
def Json.get : Json → String → Option Json
  | .obj fields, key => assocFind fields key
  | _, _ => none

/-- `Value::as_str`. -/
def Json.asStr : Json → Option String
  | .str s => some s
  | _ => none

/-- `Value::as_bool`. -/
def Json.asBool : Json → Option Bool
  | .bool b => some b
  | _ => none

/-- `Value::as_array`. -/
def Json.asArr : Json → Option (List Json)
  | .arr xs => some xs
  | _ => none

/-- The external `serde_json` text layer: `to_string` into UTF-8 bytes and
the composition of `read_to_string` with `from_str` back.  Both are external
library code; claims that need them assume the round trip on the document
they write. -/
structure JsonCodec where
  enc : Json → Bytes
  dec : Bytes → Option Json

/-- UTF-8 bytes of a string (ASCII fragment, which is all the adapter's own
data uses). -/
def strBytes (s : String) : Bytes := s.data.map Char.toNat

/-- `String::from_utf8` (ASCII fragment); `none` models an encoding failure. -/
def bytesToStr (bs : Bytes) : Option String :=
  if bs.all (· < 128) then some ⟨bs.map Char.ofNat⟩ else none

/-- Does a name end with `CONFLICT_SUFFIX` (`str::ends_with`)? -/
def hasConflictSuffix (name : String) : Bool :=
  CONFLICT_SUFFIX.data.isSuffixOf name.data

/-- `&name[0..name.len() - CONFLICT_SUFFIX.len()]`: drop the suffix. -/
def stripConflictSuffix (name : String) : String :=
  ⟨name.data.take (name.data.length - CONFLICT_SUFFIX.data.length)⟩

/-- `signature_from_git`: seconds become milliseconds (`seconds * 1000` cast
`as u64`, modelled by the exact wrap-around), offset carried over. -/
def signature_from_git (s : GitSignature) : Signature :=
  { name := s.name
    email := s.email
    timestamp :=
      { timestamp := ((s.time.seconds * 1000) % (2 ^ 64 : Int)).toNat
        tz_offset := s.time.offset_minutes } }

/-- `signature_to_git`: truncating division of milliseconds to whole seconds,
offset carried over. -/
def signature_to_git (s : Signature) : GitSignature :=
  { name := s.name
    email := s.email
    time :=
      { seconds := (s.timestamp.timestamp / 1000 : Nat)
        offset_minutes := s.timestamp.tz_offset } }

/-- `serialize_extras`: the overlay record extracted from a commit (see
`Extras` for the byte-layer modelling). -/
def serialize_extras (c : Commit) : Extras :=
  { is_open := c.is_open, change_id := c.change_id, predecessors := c.predecessors }

/-- `deserialize_extras`: overwrite `is_open` and `change_id`, push the
stored predecessors onto the commit's (empty at the call site) list. -/
def deserialize_extras (c : Commit) (e : Extras) : Commit :=
  { c with
    is_open := e.is_open
    change_id := e.change_id
    predecessors := c.predecessors ++ e.predecessors }

/-- `create_no_gc_ref`: the random uuid (an external generator) is supplied
as an input. -/
def create_no_gc_ref (uuid : String) : String := NO_GC_REF_NAMESPACE ++ uuid

/-- `Repository::find_tree`.  libgit2 serves the empty tree as a hardcoded
object present in every repository (the adapter's own tests write commits
against `empty_tree_id` in a fresh store). -/
def find_tree (st : BackendState) (id : Bytes) : Option (List GitTreeEntry) :=
  if id = empty_tree_id then some [] else assocFind st.repo.trees id

/-- `GitBackend::read_file`: length check, then `find_blob(..).unwrap()` —
an absent blob is a panic, not a returned error. -/
def read_file (st : BackendState) (_path : String) (id : Bytes) : RustResult Bytes :=
  if id.length ≠ HASH_LENGTH then .err .notFound
  else
    match assocFind st.repo.blobs id with
    | none => .panicked "find_blob"
    | some content => .ok content

/-- `GitBackend::write_file`: content-address the bytes and store the blob. -/
def write_file (h : Hasher) (st : BackendState) (_path : String) (contents : Bytes) :
    RustResult Bytes × BackendState :=
  let oid := h.hashBlob contents
  (.ok oid, { st with repo := { st.repo with blobs := (oid, contents) :: st.repo.blobs } })

/-- `GitBackend::read_symlink`. -/
def read_symlink (st : BackendState) (_path : String) (id : Bytes) : RustResult String :=
  if id.length ≠ HASH_LENGTH then .err .notFound
  else
    match assocFind st.repo.blobs id with
    | none => .panicked "find_blob"
    | some content =>
      match bytesToStr content with
      | none => .panicked "from_utf8"
      | some target => .ok target

/-- `GitBackend::write_symlink`. -/
def write_symlink (h : Hasher) (st : BackendState) (_path : String) (target : String) :
    RustResult Bytes × BackendState :=
  let bs := strBytes target
  let oid := h.hashBlob bs
  (.ok oid, { st with repo := { st.repo with blobs := (oid, bs) :: st.repo.blobs } })

/-- Decode one native tree entry as the `match` in `read_tree` does;
`none` is the `panic!` on an unexpected mode or object kind. -/
def decodeGitEntry (e : GitTreeEntry) : Option (String × TreeValue) :=
  if e.filemode = 0o040000 then some (e.name, .tree e.id)
  else if e.filemode = 0o160000 then some (e.name, .gitSubmodule e.id)
  else if e.filemode = 0o100644 then
    if hasConflictSuffix e.name then
      some (stripConflictSuffix e.name, .conflict e.id)
    else some (e.name, .normal e.id false)
  else if e.filemode = 0o100755 then some (e.name, .normal e.id true)
  else if e.filemode = 0o120000 then some (e.name, .symlink e.id)
  else none

/-- The entry loop of `read_tree`: decode each entry and `tree.set` it. -/
def readTreeFold : List GitTreeEntry → Tree → Option Tree
  | [], t => some t
  | e :: rest, t =>
    match decodeGitEntry e with
    | none => none
    | some (n, v) => readTreeFold rest (t.set n v)

/-- `GitBackend::read_tree`: empty-tree short-circuit, length check,
`find_tree(..).unwrap()`, then decode every entry. -/
def read_tree (st : BackendState) (_path : String) (id : Bytes) : RustResult Tree :=
  if id = empty_tree_id then .ok ⟨[]⟩
  else if id.length ≠ HASH_LENGTH then .err .notFound
  else
    match find_tree st id with
    | none => .panicked "find_tree"
    | some ges =>
      match readTreeFold ges ⟨[]⟩ with
      | none => .panicked "unexpected mode or object kind"
      | some t => .ok t

/-- The `(name, id, filemode)` triple `write_tree` emits for one entry:
a Conflict becomes a regular-file entry with `CONFLICT_SUFFIX` appended. -/
def encodeTreeValue (name : String) : TreeValue → String × Bytes × Nat
  | .normal id false => (name, id, 0o100644)
  | .normal id true => (name, id, 0o100755)
  | .symlink id => (name, id, 0o120000)
  | .tree id => (name, id, 0o040000)
  | .gitSubmodule id => (name, id, 0o160000)
  | .conflict id => (name ++ CONFLICT_SUFFIX, id, 0o100644)

/-- `encodeTreeValue` packaged as a native entry. -/
def toGitEntry (e : String × TreeValue) : GitTreeEntry :=
  { name := (encodeTreeValue e.1 e.2).1
    id := (encodeTreeValue e.1 e.2).2.1
    filemode := (encodeTreeValue e.1 e.2).2.2 }

/-- `TreeBuilder::insert`: replaces an entry with the same name, otherwise
appends. -/
def builderInsert (e : GitTreeEntry) : List GitTreeEntry → List GitTreeEntry
  | [] => [e]
  | f :: rest => if f.name = e.name then e :: rest else f :: builderInsert e rest

/-- The entry loop of `write_tree`: `Oid::from_bytes(id).unwrap()` panics on
a wrong-length id (`none`), otherwise the entry goes into the builder. -/
def buildGitEntries : List (String × TreeValue) → List GitTreeEntry →
    Option (List GitTreeEntry)
  | [], acc => some acc
  | e :: rest, acc =>
    if (toGitEntry e).id.length = HASH_LENGTH then
      buildGitEntries rest (builderInsert (toGitEntry e) acc)
    else none

/-- `GitBackend::write_tree`. -/
def write_tree (h : Hasher) (st : BackendState) (_path : String) (contents : Tree) :
    RustResult Bytes × BackendState :=
  match buildGitEntries contents.entries [] with
  | none => (.panicked "Oid::from_bytes", st)
  | some ges =>
    let oid := h.hashTree ges
    (.ok oid, { st with repo := { st.repo with trees := (oid, ges) :: st.repo.trees } })

/-- `GitBackend::read_commit`: length check, `find_commit` (`?`, so an
absent commit is a recoverable `NotFound`), derived change id, neutral
defaults, then the overlay record if present. -/
def read_commit (st : BackendState) (id : Bytes) : RustResult Commit :=
  if id.length ≠ HASH_LENGTH then .err .notFound
  else
    match assocFind st.repo.commits id with
    | none => .err .notFound
    | some gc =>
      let base : Commit :=
        { parents := gc.parents
          predecessors := []
          root_tree := gc.tree
          change_id := change_id_from_commit_id id
          description := gc.message
          author := signature_from_git gc.author
          committer := signature_from_git gc.committer
          is_open := false }
      match assocFind st.table id with
      | none => .ok base
      | some extras => .ok (deserialize_extras base extras)

/-- The native commit object `write_commit` hands to the store. -/
def git_commit_of (c : Commit) : GitCommit :=
  { tree := c.root_tree
    parents := c.parents
    author := signature_to_git c.author
    committer := signature_to_git c.committer
    message := c.description }

/-- The parent-resolution loop of `write_commit`
(`find_commit(Oid::from_bytes(..)?)?` per parent); `none` means all found. -/
def lookup_parents (commits : List (Bytes × GitCommit)) : List Bytes → Option BackendError
  | [] => none
  | p :: ps =>
    if p.length ≠ HASH_LENGTH then some (.other "invalid oid")
    else
      match assocFind commits p with
      | none => some .notFound
      | some _ => lookup_parents commits ps

/-- The collision error message of `write_commit`. -/
def collision_msg (gid : Bytes) : String :=
  "Git commit " ++ toHex gid ++ " already exists with different associated non-Git meta-data"

/-- `GitBackend::write_commit`: resolve the tree and parents, write the
native commit together with its no-GC pinning ref, then reconcile with the
overlay: an existing byte-different record is a fatal error (the git object
and ref remain written), otherwise the record is added and saved. -/
def write_commit (h : Hasher) (uuid : String) (st : BackendState) (c : Commit) :
    RustResult Bytes × BackendState :=
  if c.root_tree.length ≠ HASH_LENGTH then (.err (.other "invalid oid"), st)
  else
    match find_tree st c.root_tree with
    | none => (.err .notFound, st)
    | some _ =>
      match lookup_parents st.repo.commits c.parents with
      | some e => (.err e, st)
      | none =>
        let gc := git_commit_of c
        let gid := h.hashCommit gc
        let repoAfter : GitRepo :=
          { st.repo with
            commits := (gid, gc) :: st.repo.commits
            refs := (create_no_gc_ref uuid, gid) :: st.repo.refs }
        let extras := serialize_extras c
        match assocFind st.table gid with
        | some existing =>
          if existing = extras then
            (.ok gid, { repo := repoAfter, table := (gid, extras) :: st.table })
          else
            (.err (.other (collision_msg gid)), { st with repo := repoAfter })
        | none => (.ok gid, { repo := repoAfter, table := (gid, extras) :: st.table })

/-- `tree_value_to_json`. -/
def tree_value_to_json : TreeValue → Json
  | .normal id e =>
    .obj [("file", .obj [("id", .str (toHex id)), ("executable", .bool e)])]
  | .symlink id => .obj [("symlink_id", .str (toHex id))]
  | .tree id => .obj [("tree_id", .str (toHex id))]
  | .gitSubmodule id => .obj [("submodule_id", .str (toHex id))]
  | .conflict id => .obj [("conflict_id", .str (toHex id))]

/-- `bytes_vec_from_json`: `as_str().unwrap()` then `hex::decode(..).unwrap()`;
`none` is the panic. -/
def bytes_vec_from_json (j : Json) : Option Bytes := do
  fromHex (← j.asStr)

/-- `tree_value_from_json`: `if let` chain trying `file`, `symlink_id`,
`tree_id`, `submodule_id`, `conflict_id` in that order; `none` is the
`panic!` when nothing matches (or a nested `unwrap` fails). -/
def tree_value_from_json (j : Json) : Option TreeValue :=
  match j.get "file" with
  | some jf => do
    let idj ← jf.get "id"
    let idb ← bytes_vec_from_json idj
    let ej ← jf.get "executable"
    let e ← ej.asBool
    pure (.normal idb e)
  | none =>
    match j.get "symlink_id" with
    | some ji => do pure (.symlink (← bytes_vec_from_json ji))
    | none =>
      match j.get "tree_id" with
      | some ji => do pure (.tree (← bytes_vec_from_json ji))
      | none =>
        match j.get "submodule_id" with
        | some ji => do pure (.gitSubmodule (← bytes_vec_from_json ji))
        | none =>
          match j.get "conflict_id" with
          | some ji => do pure (.conflict (← bytes_vec_from_json ji))
          | none => none

/-- `conflict_part_to_json`. -/
def conflict_part_to_json (p : ConflictPart) : Json :=
  .obj [("value", tree_value_to_json p.value)]

/-- `conflict_part_from_json` (`get("value").unwrap()` then decode). -/
def conflict_part_from_json (j : Json) : Option ConflictPart := do
  let v ← j.get "value"
  let tv ← tree_value_from_json v
  pure ⟨tv⟩

/-- `conflict_part_list_to_json`. -/
def conflict_part_list_to_json (ps : List ConflictPart) : Json :=
  .arr (ps.map conflict_part_to_json)

/-- The element-wise decode of a conflict part list (`iter().map(..)`),
propagating the panic of any element. -/
def decodePartList : List Json → Option (List ConflictPart)
  | [] => some []
  | x :: xs => do
    let p ← conflict_part_from_json x
    let ps ← decodePartList xs
    pure (p :: ps)

/-- `conflict_part_list_from_json` (`as_array().unwrap()` then map). -/
def conflict_part_list_from_json (j : Json) : Option (List ConflictPart) := do
  let xs ← j.asArr
  decodePartList xs

/-- The serialized conflict document. -/
def conflict_to_json (c : Conflict) : Json :=
  .obj [("removes", conflict_part_list_to_json c.removes),
        ("adds", conflict_part_list_to_json c.adds)]

/-- `GitBackend::write_conflict`: serialize, store as an ordinary blob. -/
def write_conflict (h : Hasher) (jc : JsonCodec) (st : BackendState) (_path : String)
    (c : Conflict) : RustResult Bytes × BackendState :=
  let bytes := jc.enc (conflict_to_json c)
  let oid := h.hashBlob bytes
  (.ok oid, { st with repo := { st.repo with blobs := (oid, bytes) :: st.repo.blobs } })

/-- `GitBackend::read_conflict`: delegate to `read_file` (propagating its
recoverable errors with `?`), then parse the document; parse and shape
failures are panics (`unwrap`). -/
def read_conflict (jc : JsonCodec) (st : BackendState) (_path : String) (id : Bytes) :
    RustResult Conflict :=
  match read_file st "unused" id with
  | .err e => .err e
  | .panicked m => .panicked m
  | .ok data =>
    match jc.dec data with
    | none => .panicked "serde_json::from_str"
    | some json =>
      match json.get "removes" with
      | none => .panicked "get removes"
      | some jr =>
        match json.get "adds" with
        | none => .panicked "get adds"
        | some ja =>
          match conflict_part_list_from_json jr, conflict_part_list_from_json ja with
          | some removes, some adds => .ok ⟨removes, adds⟩
          | _, _ => .panicked "conflict decode"

/-- Does this entry decode differently than it was written: a non-executable
normal file whose name carries the conflict suffix? -/
def isPlainFileWithSuffix (e : String × TreeValue) : Bool :=
  match e.2 with
  | .normal _ false => hasConflictSuffix e.1
  | _ => false

/-- The native entry name an entry is written under. -/
def encodedName (e : String × TreeValue) : String := (encodeTreeValue e.1 e.2).1

/-- A 20-byte id filled with one byte, for concrete instances. -/
def mk20 (b : Nat) : Bytes := List.replicate 20 b

/-- A concrete store hash for witnesses. -/
def wHasher : Hasher :=
  { hashBlob := fun _ => mk20 1
    hashTree := fun es => match es with | [] => empty_tree_id | _ :: _ => mk20 2
    hashCommit := fun _ => mk20 3 }

/-- A freshly initialized backend state. -/
def st0 : BackendState := ⟨⟨[], [], [], []⟩, []⟩

/-- A concrete native signature. -/
def wGitSig : GitSignature := ⟨"a", "e", ⟨0, 0⟩⟩

/-- A concrete native commit object. -/
def wGitCommit : GitCommit := ⟨mk20 2, [], wGitSig, wGitSig, "m"⟩

/-- A concrete 20-byte commit id. -/
def wId : Bytes := mk20 0

/-- A state holding one native commit and an empty overlay. -/
def wStCommit : BackendState := ⟨⟨[], [], [(wId, wGitCommit)], []⟩, []⟩

/-- A concrete signature with sub-second precision and a timezone. -/
def wSig : Signature := ⟨"Someone", "someone@example.com", ⟨1234, 60⟩⟩

/-- A concrete commit rooted at the empty tree. -/
def wCommit : Commit :=
  ⟨[], [], empty_tree_id, List.replicate 16 5, "initial", wSig, wSig, false⟩

/-- A conflict document entry carrying two recognized tags at once. -/
def c6json : Json :=
  Json.obj [("file", Json.obj [("id", Json.str "00"), ("executable", Json.bool true)]),
            ("symlink_id", Json.str "11")]

/-- A concrete conflict with a nested conflict value in its adds. -/
def wConflict : Conflict := ⟨[⟨.normal (mk20 0) true⟩], [⟨.conflict (mk20 1)⟩]⟩

/-- A codec that round-trips the one document `wConflict` serializes to. -/
def wCodec : JsonCodec := ⟨fun _ => [0], fun _ => some (conflict_to_json wConflict)⟩

/-- A concrete well-formed tree with a conflict entry. -/
def wTree : Tree :=
  ⟨[("a", .normal (mk20 0) false), ("b", .conflict (mk20 1)), ("c", .symlink (mk20 2))]⟩

/-- A tree whose only entry is a plain file named with the conflict suffix. -/
def c3BadTree : Tree := ⟨[("x.jjconflict", .normal (mk20 0) false)]⟩

theorem wHasherWf : HasherWf wHasher := by
  refine ⟨?_, ?_, ?_, ?_⟩
  · intro bs; simp [wHasher, mk20, HASH_LENGTH]
  · intro es
    cases es with
    | nil => decide
    | cons a l => simp [wHasher, mk20, HASH_LENGTH]
  · intro gc; simp [wHasher, mk20, HASH_LENGTH]
  · intro es hes
    cases es with
    | nil => rfl
    | cons a l =>
      simp only [wHasher] at hes
      exact absurd hes (by decide)

theorem Json.get_obj (fields : List (String × Json)) (key : String) :
    (Json.obj fields).get key = assocFind fields key := rfl

/-- Inversion for a successful `write_commit`: the returned id is the native
hash of the translated commit, and the post-state holds the new commit, its
pinning ref, and the overlay record. -/
theorem write_commit_ok_inv (h : Hasher) (u : String) (st : BackendState) (c : Commit)
    (r : Bytes) (st2 : BackendState) (hw : write_commit h u st c = (.ok r, st2)) :
    r = h.hashCommit (git_commit_of c) ∧
    st2 = { repo := { st.repo with
              commits := (r, git_commit_of c) :: st.repo.commits
              refs := (create_no_gc_ref u, r) :: st.repo.refs }
            table := (r, serialize_extras c) :: st.table } := by
  unfold write_commit at hw
  split at hw
  · simp at hw
  · split at hw
    · simp at hw
    · split at hw
      · simp at hw
      · rcases hfind : assocFind st.table (h.hashCommit (git_commit_of c)) with _ | existing
        · simp only [hfind] at hw
          simp at hw
          obtain ⟨h1, h2⟩ := hw
          subst h1
          exact ⟨rfl, h2.symm⟩
        · simp only [hfind] at hw
          by_cases he : existing = serialize_extras c
          · simp [he] at hw
            obtain ⟨h1, h2⟩ := hw
            subst h1
            exact ⟨rfl, h2.symm⟩
          · simp [he] at hw

theorem assocFind_cons_self {κ α : Type} [DecidableEq κ] (k : κ) (v : α)
    (l : List (κ × α)) : assocFind ((k, v) :: l) k = some v := by
  simp [assocFind]

/-- C5 (counterexample): with a well-formed 20-byte id and an absent blob,
`read_file` does not return the recoverable `NotFound` error (it panics in
`find_blob(..).unwrap()`), refuting the claim that absence yields NotFound. -/
theorem C5_read_file_counterexample :
    read_file st0 "p" (mk20 0) ≠ .err .notFound ∧
    (mk20 0).length = HASH_LENGTH ∧
    assocFind st0.repo.blobs (mk20 0) = none := by
  refine ⟨by decide, by decide, by decide⟩

/-- C5 (amended): `read_file` returns the recoverable NotFound error exactly
when the id length mismatches the hash length; with a correct-length id and
an absent blob it panics instead of returning NotFound; the path argument
never affects the result. -/
theorem C5_read_file_amended (st : BackendState) (p q : String) (id : Bytes) :
    (id.length ≠ HASH_LENGTH → read_file st p id = .err .notFound) ∧
    (id.length = HASH_LENGTH → assocFind st.repo.blobs id = none →
      read_file st p id = .panicked "find_blob") ∧
    read_file st p id = read_file st q id := by
  refine ⟨fun hlen => by simp [read_file, hlen], fun hlen habs => ?_, rfl⟩
  simp [read_file, hlen, habs]

/-- C5 witness: the amended theorem at concrete inputs. -/
theorem C5_read_file_amended_witness :
    read_file st0 "a" [0] = .err .notFound ∧
    read_file st0 "a" (mk20 0) = .panicked "find_blob" := by
  refine ⟨(C5_read_file_amended st0 "a" "b" [0]).1 (by decide),
    (C5_read_file_amended st0 "a" "b" (mk20 0)).2.1 (by decide) (by decide)⟩

/-- C10: a `ConflictId` whose byte length mismatches the hash length makes
`read_conflict` return the recoverable NotFound error (propagated from
`read_file`'s length check), not a fatal decode failure. -/
theorem C10_conflict_length_notfound (jc : JsonCodec) (st : BackendState)
    (p : String) (id : Bytes) (hlen : id.length ≠ HASH_LENGTH) :
    read_conflict jc st p id = .err .notFound := by
  simp [read_conflict, read_file, hlen]

/-- C10 witness: a one-byte conflict id on a fresh state. -/
theorem C10_conflict_length_notfound_witness :
    read_conflict wCodec st0 "p" [0] = .err .notFound :=
  C10_conflict_length_notfound wCodec st0 "p" [0] (by decide)

/-- C2: for a 20-byte commit id naming a stored commit with no overlay
record, `read_commit` succeeds and its change id is the commit id with the
first 4 bytes dropped, the bytes reversed, and the bits of each byte
reversed — independent of the stored commit object. -/
theorem C2_change_id_derivation (st : BackendState) (id : Bytes) (gc : GitCommit)
    (hlen : id.length = HASH_LENGTH)
    (hfound : assocFind st.repo.commits id = some gc)
    (hnoext : assocFind st.table id = none) :
    ∃ c, read_commit st id = .ok c ∧
      c.change_id = ((id.drop 4).reverse).map reverseBits8 := by
  have ht : id.take HASH_LENGTH = id := by
    rw [← hlen]; exact List.take_length _
  refine ⟨{ parents := gc.parents, predecessors := [], root_tree := gc.tree,
            change_id := change_id_from_commit_id id, description := gc.message,
            author := signature_from_git gc.author,
            committer := signature_from_git gc.committer, is_open := false },
          ?_, ?_⟩
  · simp [read_commit, hlen, hfound, hnoext]
  · simp [change_id_from_commit_id, ht]

/-- C2 witness: the derivation at a concrete stored commit. -/
theorem C2_change_id_derivation_witness :
    ∃ c, read_commit wStCommit wId = .ok c ∧
      c.change_id = ((wId.drop 4).reverse).map reverseBits8 :=
  C2_change_id_derivation wStCommit wId wGitCommit (by decide) (by decide) (by decide)

/-- C7 (counterexample): the ChangeId that `read_commit` derives for a
commit with no overlay record has 16 bytes, not the store's hash length of
20, refuting the claim that every returned identifier has the hash length. -/
theorem C7_length_counterexample :
    read_commit wStCommit wId =
      .ok { parents := [], predecessors := [], root_tree := mk20 2,
            change_id := List.replicate 16 0, description := "m",
            author := ⟨"a", "e", ⟨0, 0⟩⟩, committer := ⟨"a", "e", ⟨0, 0⟩⟩,
            is_open := false } ∧
    (List.replicate 16 0).length ≠ HASH_LENGTH := by
  refine ⟨by decide, by decide⟩

/-- C7 (amended): every identifier produced by the write operations has the
store's hash length (20 bytes); the ChangeId derived from a 20-byte CommitId
instead has length `HASH_LENGTH - 4 = 16`. -/
theorem C7_identifier_lengths_amended (h : Hasher) (hwf : HasherWf h) :
    (∀ st p bs r st2, write_file h st p bs = (.ok r, st2) → r.length = HASH_LENGTH) ∧
    (∀ st p s r st2, write_symlink h st p s = (.ok r, st2) → r.length = HASH_LENGTH) ∧
    (∀ st p t r st2, write_tree h st p t = (.ok r, st2) → r.length = HASH_LENGTH) ∧
    (∀ jc st p c r st2, write_conflict h jc st p c = (.ok r, st2) →
      r.length = HASH_LENGTH) ∧
    (∀ u st c r st2, write_commit h u st c = (.ok r, st2) → r.length = HASH_LENGTH) ∧
    (∀ id : Bytes, id.length = HASH_LENGTH →
      (change_id_from_commit_id id).length = HASH_LENGTH - 4) := by
  refine ⟨?_, ?_, ?_, ?_, ?_, ?_⟩
  · intro st p bs r st2 hw
    simp [write_file] at hw
    obtain ⟨h1, -⟩ := hw
    exact h1 ▸ hwf.blob_len bs
  · intro st p s r st2 hw
    simp [write_symlink] at hw
    obtain ⟨h1, -⟩ := hw
    exact h1 ▸ hwf.blob_len _
  · intro st p t r st2 hw
    unfold write_tree at hw
    split at hw
    · simp at hw
    · simp at hw
      obtain ⟨h1, -⟩ := hw
      exact h1 ▸ hwf.tree_len _
  · intro jc st p c r st2 hw
    simp [write_conflict] at hw
    obtain ⟨h1, -⟩ := hw
    exact h1 ▸ hwf.blob_len _
  · intro u st c r st2 hw
    obtain ⟨h1, -⟩ := write_commit_ok_inv h u st c r st2 hw
    exact h1 ▸ hwf.commit_len _
  · intro id hlen
    simp [change_id_from_commit_id, hlen]

/-- C7 witness: the amended lengths at a concrete hasher and inputs. -/
theorem C7_identifier_lengths_amended_witness :
    (wHasher.hashBlob []).length = HASH_LENGTH ∧
    (change_id_from_commit_id (mk20 0)).length = HASH_LENGTH - 4 :=
  ⟨(C7_identifier_lengths_amended wHasher wHasherWf).1 st0 "p" [] (wHasher.hashBlob [])
      _ rfl,
    (C7_identifier_lengths_amended wHasher wHasherWf).2.2.2.2.2 (mk20 0) (by decide)⟩

/-- C6 (counterexample): an entry carrying both the `file` and `symlink_id`
tags decodes successfully to the `file` interpretation instead of being
rejected, refuting the exactly-one-tag claim. -/
theorem C6_tag_counterexample :
    (c6json.get "file").isSome = true ∧
    (c6json.get "symlink_id").isSome = true ∧
    tree_value_from_json c6json = some (.normal [0] true) := by
  refine ⟨by decide, by decide, by decide⟩

/-- C6 (amended): an entry with none of the five recognized tags is a fatal
decode failure; when several tags are present the decoder silently picks the
first in the fixed order `file`, `symlink_id`, `tree_id`, `submodule_id`,
`conflict_id`, ignoring the rest of the entry. -/
theorem C6_tag_dispatch_amended :
    (∀ j : Json, j.get "file" = none → j.get "symlink_id" = none →
      j.get "tree_id" = none → j.get "submodule_id" = none →
      j.get "conflict_id" = none → tree_value_from_json j = none) ∧
    (∀ j jf, j.get "file" = some jf →
      tree_value_from_json j = tree_value_from_json (Json.obj [("file", jf)])) ∧
    (∀ j ji, j.get "file" = none → j.get "symlink_id" = some ji →
      tree_value_from_json j = tree_value_from_json (Json.obj [("symlink_id", ji)])) ∧
    (∀ j ji, j.get "file" = none → j.get "symlink_id" = none →
      j.get "tree_id" = some ji →
      tree_value_from_json j = tree_value_from_json (Json.obj [("tree_id", ji)])) ∧
    (∀ j ji, j.get "file" = none → j.get "symlink_id" = none →
      j.get "tree_id" = none → j.get "submodule_id" = some ji →
      tree_value_from_json j = tree_value_from_json (Json.obj [("submodule_id", ji)])) ∧
    (∀ j ji, j.get "file" = none → j.get "symlink_id" = none →
      j.get "tree_id" = none → j.get "submodule_id" = none →
      j.get "conflict_id" = some ji →
      tree_value_from_json j = tree_value_from_json (Json.obj [("conflict_id", ji)])) := by
  refine ⟨?_, ?_, ?_, ?_, ?_, ?_⟩
  · intro j h1 h2 h3 h4 h5
    simp [tree_value_from_json, h1, h2, h3, h4, h5]
  · intro j jf h1
    simp [tree_value_from_json, h1, Json.get_obj, assocFind]
  · intro j ji h1 h2
    simp [tree_value_from_json, h1, h2, Json.get_obj, assocFind]
  · intro j ji h1 h2 h3
    simp [tree_value_from_json, h1, h2, h3, Json.get_obj, assocFind]
  · intro j ji h1 h2 h3 h4
    simp [tree_value_from_json, h1, h2, h3, h4, Json.get_obj, assocFind]
  · intro j ji h1 h2 h3 h4 h5
    simp [tree_value_from_json, h1, h2, h3, h4, h5, Json.get_obj, assocFind]

/-- C6 witness: the zero-tag case at a concrete document. -/
theorem C6_tag_dispatch_amended_witness : tree_value_from_json Json.null = none :=
  C6_tag_dispatch_amended.1 Json.null rfl rfl rfl rfl rfl

/-- `assocFind` on an extended association list still finds every key that
was found before (possibly with the newer value). -/
theorem lookup_parents_cons (cs : List (Bytes × GitCommit)) (k : Bytes) (v : GitCommit) :
    ∀ ps, lookup_parents cs ps = none → lookup_parents ((k, v) :: cs) ps = none := by
  intro ps
  induction ps with
  | nil => intro _; rfl
  | cons p ps ih =>
    intro hp
    unfold lookup_parents at hp ⊢
    split at hp
    · simp at hp
    · next hl =>
      rw [if_neg hl]
      rcases hfind : assocFind cs p with _ | gcv
      · rw [hfind] at hp; simp at hp
      · rw [hfind] at hp
        rcases eq_or_ne k p with hkp | hkp
        · subst hkp
          rw [show assocFind ((k, v) :: cs) k = some v from by simp [assocFind]]
          exact ih hp
        · rw [show assocFind ((k, v) :: cs) p = assocFind cs p from by
            simp [assocFind, hkp], hfind]
          exact ih hp

/-- `write_commit` succeeds when the root tree and the parents resolve and
the overlay holds no record, or an identical record, for the new native id;
the post-state is the written commit, its pinning ref, and the record. -/
theorem write_commit_eq_ok (h : Hasher) (u : String) (st : BackendState) (c : Commit)
    (hlen : c.root_tree.length = HASH_LENGTH)
    (htree : (find_tree st c.root_tree).isSome = true)
    (hpar : lookup_parents st.repo.commits c.parents = none)
    (hover : assocFind st.table (h.hashCommit (git_commit_of c)) = none ∨
             assocFind st.table (h.hashCommit (git_commit_of c)) =
               some (serialize_extras c)) :
    write_commit h u st c =
      (.ok (h.hashCommit (git_commit_of c)),
       { repo := { st.repo with
           commits := (h.hashCommit (git_commit_of c), git_commit_of c) ::
             st.repo.commits
           refs := (create_no_gc_ref u, h.hashCommit (git_commit_of c)) ::
             st.repo.refs }
         table := (h.hashCommit (git_commit_of c), serialize_extras c) ::
           st.table }) := by
  obtain ⟨ges, hges⟩ := Option.isSome_iff_exists.mp htree
  unfold write_commit
  rw [if_neg (by simp [hlen]), hges, hpar]
  rcases hover with hnone | hsome
  · simp [hnone]
  · simp [hsome]

/-- `write_commit` fails with the collision error when the overlay already
holds a byte-different record for the new native id; the git object and its
pinning ref remain written, the overlay is untouched. -/
theorem write_commit_collision (h : Hasher) (u : String) (st : BackendState) (c : Commit)
    (hlen : c.root_tree.length = HASH_LENGTH)
    (htree : (find_tree st c.root_tree).isSome = true)
    (hpar : lookup_parents st.repo.commits c.parents = none)
    (e : Extras)
    (hfind : assocFind st.table (h.hashCommit (git_commit_of c)) = some e)
    (hne : e ≠ serialize_extras c) :
    write_commit h u st c =
      (.err (.other (collision_msg (h.hashCommit (git_commit_of c)))),
       { st with repo := { st.repo with
           commits := (h.hashCommit (git_commit_of c), git_commit_of c) ::
             st.repo.commits
           refs := (create_no_gc_ref u, h.hashCommit (git_commit_of c)) ::
             st.repo.refs } }) := by
  obtain ⟨ges, hges⟩ := Option.isSome_iff_exists.mp htree
  unfold write_commit
  rw [if_neg (by simp [hlen]), hges, hpar]
  simp [hfind, hne]

/-- C1: with the commit's tree and parents resolvable, `write_commit` fails
with the "already exists with different associated non-Git meta-data" error
exactly when the overlay already holds a byte-different record for the
commit's native id; with no record or an identical record it succeeds, and
writing the same commit a second time succeeds again with the same id. -/
theorem C1_overlay_write_guard (h : Hasher) (u1 u2 : String) (st : BackendState)
    (c : Commit)
    (hlen : c.root_tree.length = HASH_LENGTH)
    (htree : (find_tree st c.root_tree).isSome = true)
    (hpar : lookup_parents st.repo.commits c.parents = none) :
    (∀ e, assocFind st.table (h.hashCommit (git_commit_of c)) = some e →
      e ≠ serialize_extras c →
      (write_commit h u1 st c).1 =
        .err (.other (collision_msg (h.hashCommit (git_commit_of c))))) ∧
    (assocFind st.table (h.hashCommit (git_commit_of c)) = none ∨
     assocFind st.table (h.hashCommit (git_commit_of c)) =
       some (serialize_extras c) →
      (write_commit h u1 st c).1 = .ok (h.hashCommit (git_commit_of c)) ∧
      (write_commit h u2 (write_commit h u1 st c).2 c).1 =
        .ok (h.hashCommit (git_commit_of c))) := by
  constructor
  · intro e hfind hne
    rw [write_commit_collision h u1 st c hlen htree hpar e hfind hne]
  · intro hover
    have h1 := write_commit_eq_ok h u1 st c hlen htree hpar hover
    refine ⟨by rw [h1], ?_⟩
    rw [h1]
    have h2 := write_commit_eq_ok h u2
      { repo := { st.repo with
          commits := (h.hashCommit (git_commit_of c), git_commit_of c) ::
            st.repo.commits
          refs := (create_no_gc_ref u1, h.hashCommit (git_commit_of c)) ::
            st.repo.refs }
        table := (h.hashCommit (git_commit_of c), serialize_extras c) :: st.table }
      c hlen (by exact htree)
      (lookup_parents_cons st.repo.commits _ _ c.parents hpar)
      (Or.inr (by simp [assocFind]))
    rw [h2]

/-- C1 witness: a fresh store, a commit on the empty tree, written twice. -/
theorem C1_overlay_write_guard_witness :
    (write_commit wHasher "u1" st0 wCommit).1 =
      .ok (wHasher.hashCommit (git_commit_of wCommit)) ∧
    (write_commit wHasher "u2" (write_commit wHasher "u1" st0 wCommit).2 wCommit).1 =
      .ok (wHasher.hashCommit (git_commit_of wCommit)) :=
  (C1_overlay_write_guard wHasher "u1" "u2" st0 wCommit (by decide) (by decide)
    rfl).2 (Or.inl (by decide))

/-- C9: every successful `write_commit` leaves a reference named under the
reserved `refs/jj/keep/` namespace pointing at the returned commit id. -/
theorem C9_pinning_ref (h : Hasher) (u : String) (st : BackendState) (c : Commit)
    (gid : Bytes) (st2 : BackendState)
    (hw : write_commit h u st c = (.ok gid, st2)) :
    assocFind st2.repo.refs (NO_GC_REF_NAMESPACE ++ u) = some gid := by
  obtain ⟨h1, h2⟩ := write_commit_ok_inv h u st c gid st2 hw
  subst h2
  simp [assocFind, create_no_gc_ref]

/-- C9 witness: a concrete successful write on a fresh store. -/
theorem C9_pinning_ref_witness :
    assocFind ((write_commit wHasher "u" st0 wCommit).2).repo.refs
      (NO_GC_REF_NAMESPACE ++ "u") = some (mk20 3) :=
  C9_pinning_ref wHasher "u" st0 wCommit (mk20 3) _ (by decide)

/-- The adapter's signature translation truncates milliseconds to whole
seconds on write and reconstructs whole-second milliseconds on read,
keeping the timezone offset exactly. -/
theorem signature_from_to (s : Signature) (hm : s.timestamp.timestamp < 2 ^ 64) :
    signature_from_git (signature_to_git s) =
      ⟨s.name, s.email, ⟨s.timestamp.timestamp / 1000 * 1000, s.timestamp.tz_offset⟩⟩ := by
  have hle : s.timestamp.timestamp / 1000 * 1000 < 2 ^ 64 :=
    lt_of_le_of_lt (Nat.div_mul_le_self _ _) hm
  simp [signature_from_git, signature_to_git]
  omega

/-- C8: a commit written with millisecond timestamps reads back with each
timestamp truncated to whole seconds (`m / 1000 * 1000`, truncating integer
division) and each timezone offset preserved exactly. -/
theorem C8_timestamp_roundtrip (h : Hasher) (u : String) (st : BackendState) (c : Commit)
    (hwf : HasherWf h)
    (hlen : c.root_tree.length = HASH_LENGTH)
    (htree : (find_tree st c.root_tree).isSome = true)
    (hpar : lookup_parents st.repo.commits c.parents = none)
    (hover : assocFind st.table (h.hashCommit (git_commit_of c)) = none ∨
             assocFind st.table (h.hashCommit (git_commit_of c)) =
               some (serialize_extras c))
    (hma : c.author.timestamp.timestamp < 2 ^ 64)
    (hmc : c.committer.timestamp.timestamp < 2 ^ 64) :
    ∃ gid st2 c2, write_commit h u st c = (.ok gid, st2) ∧
      read_commit st2 gid = .ok c2 ∧
      c2.author.timestamp.timestamp = c.author.timestamp.timestamp / 1000 * 1000 ∧
      c2.author.timestamp.tz_offset = c.author.timestamp.tz_offset ∧
      c2.committer.timestamp.timestamp = c.committer.timestamp.timestamp / 1000 * 1000 ∧
      c2.committer.timestamp.tz_offset = c.committer.timestamp.tz_offset := by
  have hw := write_commit_eq_ok h u st c hlen htree hpar hover
  have hL : (h.hashCommit (git_commit_of c)).length = HASH_LENGTH := hwf.commit_len _
  refine ⟨h.hashCommit (git_commit_of c), _,
    deserialize_extras
      { parents := c.parents, predecessors := [], root_tree := c.root_tree,
        change_id := change_id_from_commit_id (h.hashCommit (git_commit_of c)),
        description := c.description,
        author := signature_from_git (signature_to_git c.author),
        committer := signature_from_git (signature_to_git c.committer),
        is_open := false } (serialize_extras c),
    hw, ?_, ?_, ?_, ?_, ?_⟩
  · unfold read_commit
    rw [if_neg (by simp [hL])]
    simp [assocFind, git_commit_of, deserialize_extras, serialize_extras]
  · simp [deserialize_extras, signature_from_to c.author hma]
  · simp [deserialize_extras, signature_from_to c.author hma]
  · simp [deserialize_extras, signature_from_to c.committer hmc]
  · simp [deserialize_extras, signature_from_to c.committer hmc]

/-- C8 witness: a signature at 1234 milliseconds, offset 60, reads back at
1000 milliseconds with offset 60. -/
theorem C8_timestamp_roundtrip_witness :
    ∃ gid st2 c2, write_commit wHasher "u" st0 wCommit = (.ok gid, st2) ∧
      read_commit st2 gid = .ok c2 ∧
      c2.author.timestamp.timestamp = 1234 / 1000 * 1000 ∧
      c2.author.timestamp.tz_offset = 60 ∧
      c2.committer.timestamp.timestamp = 1234 / 1000 * 1000 ∧
      c2.committer.timestamp.tz_offset = 60 :=
  C8_timestamp_roundtrip wHasher "u" st0 wCommit wHasherWf (by decide) (by decide)
    rfl (Or.inl (by decide)) (by decide) (by decide)

theorem hexVal_hexDigit (n : Nat) (h : n < 16) : hexVal (hexDigit n) = some n := by
  interval_cases n <;> rfl

theorem fromHexChars_toHexChars (bs : Bytes) (h : bs.all (· < 256) = true) :
    fromHexChars (toHexChars bs) = some bs := by
  induction bs with
  | nil => rfl
  | cons b rest ih =>
    simp only [List.all_cons, Bool.and_eq_true, decide_eq_true_eq] at h
    obtain ⟨hb, hrest⟩ := h
    have h1 : b / 16 < 16 := by omega
    have h2 : b % 16 < 16 := Nat.mod_lt _ (by norm_num)
    have hbb : 16 * (b / 16) + b % 16 = b := by omega
    simp [toHexChars, fromHexChars, hexVal_hexDigit _ h1, hexVal_hexDigit _ h2,
      ih hrest, hbb]

theorem fromHex_toHex (bs : Bytes) (h : bs.all (· < 256) = true) :
    fromHex (toHex bs) = some bs :=
  fromHexChars_toHexChars bs h

theorem tree_value_json_roundtrip (v : TreeValue) (h : v.wfBytes = true) :
    tree_value_from_json (tree_value_to_json v) = some v := by
  rw [TreeValue.wfBytes] at h
  cases v with
  | normal id e =>
    simp only [TreeValue.idBytes] at h
    simp [tree_value_to_json, tree_value_from_json, Json.get_obj, assocFind,
      bytes_vec_from_json, Json.asStr, Json.asBool, fromHex_toHex id h]
  | symlink id =>
    simp only [TreeValue.idBytes] at h
    simp [tree_value_to_json, tree_value_from_json, Json.get_obj, assocFind,
      bytes_vec_from_json, Json.asStr, fromHex_toHex id h]
  | tree id =>
    simp only [TreeValue.idBytes] at h
    simp [tree_value_to_json, tree_value_from_json, Json.get_obj, assocFind,
      bytes_vec_from_json, Json.asStr, fromHex_toHex id h]
  | gitSubmodule id =>
    simp only [TreeValue.idBytes] at h
    simp [tree_value_to_json, tree_value_from_json, Json.get_obj, assocFind,
      bytes_vec_from_json, Json.asStr, fromHex_toHex id h]
  | conflict id =>
    simp only [TreeValue.idBytes] at h
    simp [tree_value_to_json, tree_value_from_json, Json.get_obj, assocFind,
      bytes_vec_from_json, Json.asStr, fromHex_toHex id h]

theorem conflict_part_roundtrip (p : ConflictPart) (h : p.value.wfBytes = true) :
    conflict_part_from_json (conflict_part_to_json p) = some p := by
  simp [conflict_part_to_json, conflict_part_from_json, Json.get_obj, assocFind,
    tree_value_json_roundtrip p.value h]

theorem conflict_part_list_roundtrip (ps : List ConflictPart)
    (h : ps.all (fun p => p.value.wfBytes) = true) :
    conflict_part_list_from_json (conflict_part_list_to_json ps) = some ps := by
  have key : ∀ qs : List ConflictPart, qs.all (fun p => p.value.wfBytes) = true →
      decodePartList (qs.map conflict_part_to_json) = some qs := by
    intro qs
    induction qs with
    | nil => intro _; rfl
    | cons q rest ih =>
      intro hq
      simp only [List.all_cons, Bool.and_eq_true] at hq
      simp [decodePartList, conflict_part_roundtrip q hq.1, ih hq.2]
  simp [conflict_part_list_to_json, conflict_part_list_from_json, Json.asArr, key ps h]

/-- C4: any conflict value (nested conflict values included) written by
`write_conflict` is read back unchanged by `read_conflict` in the same
session, given that the external JSON text layer round-trips the document. -/
theorem C4_conflict_roundtrip (h : Hasher) (jc : JsonCodec) (st : BackendState)
    (p q : String) (c : Conflict) (hwf : HasherWf h) (hb : c.wfBytes = true)
    (hjson : jc.dec (jc.enc (conflict_to_json c)) = some (conflict_to_json c)) :
    ∃ cid st2, write_conflict h jc st p c = (.ok cid, st2) ∧
      read_conflict jc st2 q cid = .ok c := by
  simp only [Conflict.wfBytes, Bool.and_eq_true] at hb
  have hL := hwf.blob_len (jc.enc (conflict_to_json c))
  have hrem : (conflict_to_json c).get "removes" =
      some (conflict_part_list_to_json c.removes) := by
    simp [conflict_to_json, Json.get_obj, assocFind]
  have hadds : (conflict_to_json c).get "adds" =
      some (conflict_part_list_to_json c.adds) := by
    simp [conflict_to_json, Json.get_obj, assocFind]
  refine ⟨h.hashBlob (jc.enc (conflict_to_json c)), _, rfl, ?_⟩
  unfold read_conflict read_file
  rw [if_neg (by simp [hL])]
  simp [assocFind, hjson, hrem, hadds, conflict_part_list_roundtrip _ hb.1,
    conflict_part_list_roundtrip _ hb.2]

/-- C4 witness: a concrete conflict with a nested conflict value. -/
theorem C4_conflict_roundtrip_witness :
    ∃ cid st2, write_conflict wHasher wCodec st0 "p" wConflict = (.ok cid, st2) ∧
      read_conflict wCodec st2 "q" cid = .ok wConflict :=
  C4_conflict_roundtrip wHasher wCodec st0 "p" "q" wConflict wHasherWf (by decide) rfl

theorem toGitEntry_name (e : String × TreeValue) :
    (toGitEntry e).name = encodedName e := rfl

theorem hasConflictSuffix_append (n : String) :
    hasConflictSuffix (n ++ CONFLICT_SUFFIX) = true := by
  simp [hasConflictSuffix, String.data_append, List.isSuffixOf]

theorem stripConflictSuffix_append (n : String) :
    stripConflictSuffix (n ++ CONFLICT_SUFFIX) = n := by
  unfold stripConflictSuffix
  rw [String.data_append]
  have hl : (n.data ++ CONFLICT_SUFFIX.data).length - CONFLICT_SUFFIX.data.length =
      n.data.length := by simp
  rw [hl, List.take_left]

/-- Every entry whose decoding is not perturbed by the conflict-suffix
convention decodes back to itself. -/
theorem decode_toGitEntry (e : String × TreeValue)
    (hok : isPlainFileWithSuffix e = false) :
    decodeGitEntry (toGitEntry e) = some e := by
  obtain ⟨n, v⟩ := e
  cases v with
  | normal id ex =>
    cases ex
    · have hs : hasConflictSuffix n = false := by
        simpa [isPlainFileWithSuffix] using hok
      simp [toGitEntry, encodeTreeValue, decodeGitEntry, hs]
    · simp [toGitEntry, encodeTreeValue, decodeGitEntry]
  | symlink id => simp [toGitEntry, encodeTreeValue, decodeGitEntry]
  | tree id => simp [toGitEntry, encodeTreeValue, decodeGitEntry]
  | gitSubmodule id => simp [toGitEntry, encodeTreeValue, decodeGitEntry]
  | conflict id =>
    simp [toGitEntry, encodeTreeValue, decodeGitEntry, hasConflictSuffix_append,
      stripConflictSuffix_append]

theorem builderInsert_append (e : GitTreeEntry) :
    ∀ l : List GitTreeEntry, e.name ∉ l.map GitTreeEntry.name →
      builderInsert e l = l ++ [e] := by
  intro l
  induction l with
  | nil => intro _; rfl
  | cons f rest ih =>
    intro h
    simp only [List.map_cons, List.mem_cons, not_or] at h
    unfold builderInsert
    rw [if_neg (fun heq => h.1 heq.symm), ih h.2]
    rfl

theorem buildGitEntries_eq :
    ∀ (l : List (String × TreeValue)) (acc : List GitTreeEntry),
      (∀ e ∈ l, (toGitEntry e).id.length = HASH_LENGTH) →
      (∀ e ∈ l, (toGitEntry e).name ∉ acc.map GitTreeEntry.name) →
      (l.map encodedName).Nodup →
      buildGitEntries l acc = some (acc ++ l.map toGitEntry) := by
  intro l
  induction l with
  | nil => intro acc _ _ _; simp [buildGitEntries]
  | cons e rest ih =>
    intro acc hlen hdisj hnodup
    simp only [List.map_cons, List.nodup_cons] at hnodup
    unfold buildGitEntries
    rw [if_pos (hlen e (by simp)), builderInsert_append _ _ (hdisj e (by simp)),
      ih (acc ++ [toGitEntry e]) (fun f hf => hlen f (by simp [hf])) ?_ hnodup.2]
    · simp
    · intro f hf
      intro hmem
      rw [List.map_append, List.mem_append] at hmem
      rcases hmem with hh | hh
      · exact hdisj f (List.mem_cons_of_mem _ hf) hh
      · simp only [List.map_cons, List.map_nil, List.mem_singleton] at hh
        rw [toGitEntry_name, toGitEntry_name] at hh
        exact hnodup.1 (hh ▸ List.mem_map_of_mem encodedName hf)

theorem insertEntry_append (n : String) (v : TreeValue) :
    ∀ p : List (String × TreeValue), (∀ e ∈ p, e.1 < n) →
      insertEntry n v p = p ++ [(n, v)] := by
  intro p
  induction p with
  | nil => intro _; rfl
  | cons f rest ih =>
    intro hp
    obtain ⟨m, w⟩ := f
    have hf : m < n := hp (m, w) (by simp)
    unfold insertEntry
    rw [if_neg (lt_asymm hf), if_neg (ne_of_gt hf), ih (fun e he => hp e (by simp [he]))]
    rfl

/-- Folding a strictly name-sorted entry sequence through `Tree::set`
rebuilds exactly that sequence. -/
theorem readTreeFold_sorted :
    ∀ (l p : List (String × TreeValue)),
      (∀ e ∈ l, decodeGitEntry (toGitEntry e) = some e) →
      l.Pairwise (fun a b => a.1 < b.1) →
      (∀ a ∈ p, ∀ b ∈ l, a.1 < b.1) →
      readTreeFold (l.map toGitEntry) ⟨p⟩ = some ⟨p ++ l⟩ := by
  intro l
  induction l with
  | nil => intro p _ _ _; simp [readTreeFold]
  | cons e rest ih =>
    intro p hdec hpw hp
    rw [List.pairwise_cons] at hpw
    have hset : Tree.set ⟨p⟩ e.1 e.2 = ⟨p ++ [(e.1, e.2)]⟩ := by
      rw [Tree.set, insertEntry_append e.1 e.2 p (fun a ha => hp a ha e (by simp))]
    simp only [List.map_cons, readTreeFold, hdec e (by simp), hset]
    rw [ih (p ++ [(e.1, e.2)]) (fun f hf => hdec f (by simp [hf])) hpw.2 ?_]
    · simp
    · intro a ha b hb
      rcases List.mem_append.mp ha with hh | hh
      · exact hp a hh b (by simp [hb])
      · simp only [List.mem_singleton] at hh
        subst hh
        exact hpw.1 b hb

/-- C3 (counterexample): a tree whose single entry is a plain
non-executable file named `x.jjconflict` (no duplicate names) writes
successfully but reads back as a Conflict entry named `x`, refuting the
round-trip claim as stated. -/
theorem C3_tree_roundtrip_counterexample :
    c3BadTree.entries.Pairwise (fun a b => a.1 < b.1) ∧
    write_tree wHasher st0 "p" c3BadTree =
      (.ok (mk20 2), (write_tree wHasher st0 "p" c3BadTree).2) ∧
    read_tree (write_tree wHasher st0 "p" c3BadTree).2 "q" (mk20 2) =
      .ok ⟨[("x", .conflict (mk20 0))]⟩ ∧
    read_tree (write_tree wHasher st0 "p" c3BadTree).2 "q" (mk20 2) ≠
      .ok c3BadTree := by
  refine ⟨by simp [c3BadTree], by decide, by decide, by decide⟩

/-- `read_tree` on a non-empty-tree id resolving to stored entries that fold
back to a tree's entry list returns that tree. -/
theorem read_tree_found (st2 : BackendState) (q : String) (tid : Bytes)
    (ges : List GitTreeEntry) (t : Tree)
    (hemp : tid ≠ empty_tree_id) (hlen : tid.length = HASH_LENGTH)
    (hfind : find_tree st2 tid = some ges)
    (hfold : readTreeFold ges ⟨[]⟩ = some ⟨t.entries⟩) :
    read_tree st2 q tid = .ok t := by
  rw [read_tree, if_neg hemp, if_neg (by simp [hlen])]
  simp only [hfind, hfold]

/-- C3 (amended): `read_tree(write_tree(t)) = t` for every tree in strictly
sorted name order (no duplicate names) whose entry ids have the hash length,
provided additionally that no non-executable Normal entry's name ends with
`.jjconflict` and no two entries collide on their encoded native names (a
Conflict's name plus the suffix versus another entry's literal name) — the
documented limitations of the suffix convention. -/
theorem C3_tree_roundtrip_amended (h : Hasher) (st : BackendState) (p q : String)
    (t : Tree) (hwf : HasherWf h)
    (hsorted : t.entries.Pairwise (fun a b => a.1 < b.1))
    (hids : ∀ e ∈ t.entries, (toGitEntry e).id.length = HASH_LENGTH)
    (hplain : ∀ e ∈ t.entries, isPlainFileWithSuffix e = false)
    (hnodup : (t.entries.map encodedName).Nodup) :
    ∃ tid st2, write_tree h st p t = (.ok tid, st2) ∧ read_tree st2 q tid = .ok t := by
  have hbuild := buildGitEntries_eq t.entries [] hids (by simp) hnodup
  refine ⟨h.hashTree (t.entries.map toGitEntry),
    { st with repo := { st.repo with
        trees := (h.hashTree (t.entries.map toGitEntry), t.entries.map toGitEntry) ::
          st.repo.trees } }, ?_, ?_⟩
  · unfold write_tree
    rw [hbuild]
    simp
  · have hfold : readTreeFold (t.entries.map toGitEntry) ⟨[]⟩ = some ⟨t.entries⟩ := by
      have := readTreeFold_sorted t.entries []
        (fun e he => decode_toGitEntry e (hplain e he)) hsorted (by simp)
      simpa using this
    by_cases hemp : h.hashTree (t.entries.map toGitEntry) = empty_tree_id
    · have hnil : t.entries = [] := List.map_eq_nil_iff.mp (hwf.tree_empty _ hemp)
      rw [read_tree, if_pos hemp]
      rw [show t = ⟨t.entries⟩ from rfl, hnil]
    · exact read_tree_found _ q _ (t.entries.map toGitEntry) t hemp
        (hwf.tree_len _) (by simp [find_tree, hemp, assocFind]) hfold

/-- C3 witness: a sorted three-entry tree with a plain file, a conflict and
a symlink round-trips. -/
theorem C3_tree_roundtrip_amended_witness :
    ∃ tid st2, write_tree wHasher st0 "p" wTree = (.ok tid, st2) ∧
      read_tree st2 "q" tid = .ok wTree :=
  C3_tree_roundtrip_amended wHasher st0 "p" "q" wTree wHasherWf
    (by simp [wTree, String.lt_iff]; decide) (by decide) (by decide) (by decide)

end JJ
